import Mathlib

/-!
Verification of the Emu68 JIT translation core against its natural-language
specification.  The definitions below are shallow embeddings of the code in
`M68k_LINE5.c`, `M68k_LINEF.c` and `src/aarch64/start.c`: pure C functions
become Lean functions on `Nat` (machine words are natural numbers reduced
modulo `2^w` where overflow matters), emitted host-instruction sequences are
symbolically executed into state-transformation functions, and the emitters'
interaction with the register allocator is recorded as explicit action lists.
-/

namespace Emu68

/-! ### The DBcc emitter (src/M68k_LINE5.c, `EMIT_line5`, lines 46-140)

For the `DBcc` family the emitter produces a straight-line block of host
instructions (all exit branches converge at the end of the block, see the
patch of `branch_1` at line 110 which targets the word following `add_reg`).
`DBcc_emitted_step` is that block's effect on the guest state, obtained by
executing the emitted instructions one by one.  On entry the guest PC
register holds the address of the `DBcc` opcode word: the `DBT` special case
(line 68) advances PC by the full 4-byte instruction size, and `EMIT_lineF`
likewise advances PC by the full instruction size at the end of each emitter
(`EMIT_AdvancePC(ptr, 2 * (ext_count + 1))`), which fixes the convention. -/

/-- Sign extension of a 16-bit halfword to a signed integer, as performed by
the emitted `ldrsh` instruction (M68k_LINE5.c line 100). -/
def signext16 (w : Nat) : Int :=
  if w % 2^16 < 2^15 then (w % 2^16 : Int) else (w % 2^16 : Int) - 2^16

/-- Guest state touched by the code emitted for one `DBcc`: the 32-bit
counter data register named by the opcode, and the 32-bit guest PC. -/
structure DBccState where
  d : Nat
  pc : Nat
deriving DecidableEq, Repr

/-- Effect of executing the host code emitted by `EMIT_line5` for a `DBcc`
instruction (M68k_LINE5.c lines 66-118).  `isT`/`isF` say whether the guest
condition field is the literal condition T or F; `condT` is the value the
guest condition evaluates to (the flag materialization of `EMIT_LoadARMCC`
is abstracted into this boolean, and `condT` is irrelevant when `isF` since
the condition check block of lines 73-84 is not emitted then).  `fetch a` is
the 16-bit halfword the emitted `ldrsh` reads from guest address `a`.
On entry `s.pc` holds the guest address of the `DBcc` opcode word. -/
def DBcc_emitted_step (isT isF condT : Bool) (fetch : Nat → Nat)
    (s : DBccState) : DBccState :=
  if isT then
    -- line 68: add_immed(REG_PC, REG_PC, 4)
    { s with pc := (s.pc + 4) % 2^32 }
  else if (!isF) && condT then
    -- lines 79-83: add_cc_immed(arm_condition, REG_PC, REG_PC, 4) fires and
    -- b_cc(arm_condition) exits the block (its patched target, line 110, is
    -- the word after add_reg)
    { s with pc := (s.pc + 4) % 2^32 }
  else
    -- line 78: add_cc_immed(arm_condition^1, REG_PC, REG_PC, 2) fires on the
    -- condition-false path; when the condition is F the whole block of lines
    -- 73-84 is omitted and PC is left untouched here
    let pc1 := if !isF then (s.pc + 2) % 2^32 else s.pc
    -- line 88: mov_reg_shift(reg, counter_reg, 16)
    let r1 := (s.d <<< 16) % 2^32
    -- line 91: sub_immed(reg, reg, 0x801) -- ARM immediate 0x801 is 0x10000
    let r2 := (r1 + (2^32 - 0x10000)) % 2^32
    -- line 92: cmn_immed(reg, 0x801): Z flag <- (reg + 0x10000 wraps to 0)
    let z := (r2 + 0x10000) % 2^32 = 0
    -- line 95: lsr_immed(reg, reg, 16)
    let r3 := r2 >>> 16
    -- line 96: bfi(counter_reg, reg, 0, 16)
    let d' := s.d / 2^16 * 2^16 + r3 % 2^16
    -- line 100: ldrsh_offset(REG_PC, reg, 0): fetch the halfword at [PC]
    let disp := signext16 (fetch pc1)
    if z then
      -- lines 103-105: add_cc_immed(ARM_CC_EQ, REG_PC, REG_PC, 2) fires and
      -- b_cc(ARM_CC_EQ) exits the block
      { d := d', pc := (pc1 + 2) % 2^32 }
    else
      -- line 107: add_reg(REG_PC, REG_PC, reg, 0)
      { d := d', pc := (((pc1 : Int) + disp) % (2^32 : Int)).toNat }

/-- One call made by the `DBcc` emitter into the register allocator, or one
word appended to the output stream (instruction or trailing patch record). -/
inductive EmitAction where
  | mapM68k (n : Nat)
  | allocARM (r : Nat)
  | freeARM (r : Nat)
  | setDirty (n : Nat)
  | insn
  | patchWord
deriving DecidableEq, Repr

/-- The ordered sequence of register-allocator calls and output words
produced by `EMIT_line5` on the `DBcc` path (M68k_LINE5.c lines 56-118).
`counterReg` is the host register returned by `RA_MapM68kRegister` (line 57),
`tmp` the temporary allocated inside `EMIT_LoadARMCC` (line 31), `reg` the
scratch register for the counter arithmetic (line 87). -/
def EMIT_line5_DBcc_actions (isT isF : Bool) (counterReg tmp reg : Nat) :
    List EmitAction :=
  [.mapM68k counterReg] ++                            -- line 57
  if isT then [.insn]                                 -- line 68
  else
    (if !isF then
       -- EMIT_LoadARMCC (lines 29-44): alloc, 7 instructions, free
       [.allocARM tmp, .insn, .insn, .insn, .insn, .insn, .insn, .insn,
        .freeARM tmp,
        -- lines 78, 79, 83
        .insn, .insn, .insn]
     else []) ++
    [.allocARM reg,                                   -- line 87
     .insn,                                           -- line 88
     .insn, .insn,                                    -- lines 91-92
     .insn, .insn,                                    -- lines 95-96
     .setDirty counterReg,                            -- line 97
     .insn,                                           -- line 100
     .insn, .insn,                                    -- lines 103-105
     .insn,                                           -- line 107
     .freeARM reg] ++                                 -- line 108
    (if !isF then [.patchWord] else []) ++            -- line 111
    [.patchWord, .patchWord, .patchWord] ++           -- lines 113-115
    [.freeARM reg]                                    -- line 117

/-! ### The line-F emitter (src/M68k_LINEF.c, `EMIT_lineF`, lines 290-603) -/

/-- The kinds of code the line-F emitter can produce for one opcode pair. -/
inductive LineFItem where
  | fabs
  | fmovecr
  | fsin
  | fcos
  | fnopAdvance
  | udf
deriving DecidableEq, Repr

/-- Branch structure of `EMIT_lineF` (M68k_LINEF.c lines 297-601): the FABS
test at line 298 is a separate `if` statement, while FMOVECR / FSIN / FCOS /
FNOP / `udf` form a single `if`/`else if`/`else` chain starting at line 308.
The result lists, in order, which code blocks are appended to the output
stream for the given opcode pair. -/
def EMIT_lineF_items (opcode opcode2 : Nat) : List LineFItem :=
  (if opcode = 0xf200 ∧ opcode2 &&& 0x407f = 0x0018 then [.fabs] else []) ++
  (if opcode = 0xf200 ∧ opcode2 &&& 0xfc00 = 0x5c00 then [.fmovecr]
   else if opcode = 0xf200 ∧ opcode2 &&& 0xe07f = 0x000e then [.fsin]
   else if opcode = 0xf200 ∧ opcode2 &&& 0xe07f = 0x001d then [.fcos]
   else if opcode = 0xf280 ∧ opcode2 = 0 then [.fnopAdvance]
   else [.udf])

/-- An opcode pair is recognized by the line-F emitter when it matches one of
the five implemented instructions (FABS.X reg-reg, FMOVECR, FSIN.X, FCOS.X,
FNOP). -/
def lineF_recognized (opcode opcode2 : Nat) : Prop :=
  (opcode = 0xf200 ∧ opcode2 &&& 0x407f = 0x0018) ∨
  (opcode = 0xf200 ∧ opcode2 &&& 0xfc00 = 0x5c00) ∨
  (opcode = 0xf200 ∧ opcode2 &&& 0xe07f = 0x000e) ∨
  (opcode = 0xf200 ∧ opcode2 &&& 0xe07f = 0x001d) ∨
  (opcode = 0xf280 ∧ opcode2 = 0)

instance (opcode opcode2 : Nat) : Decidable (lineF_recognized opcode opcode2) := by
  unfold lineF_recognized; infer_instance

/-! ### Context transfer (src/src/aarch64/start.c, `M68K_LoadContext` lines
976-1030 and `M68K_SaveContext` lines 1032-1065)

The guest-visible register file lives in fixed host registers while
translated code runs; the two routines spill it to / reload it from the
`M68KState` record.  Bit positions of the status-register fields are the
M68000 architectural ones, confirmed by the code itself (`orr w5, w5,
#0x2000` to set S, `tbnz` on bits 13 and 12 for S and M, the IPM field
inserted at bits 8..10 in `stub_ExecutionLoop`). -/

/-- The host-register copy of the guest-visible state: eight data registers,
eight address registers (index 7 is the active A7 bank), PC, SR and the
eight 64-bit FPU registers. -/
structure HostRegs where
  d : Fin 8 → Nat
  a : Fin 8 → Nat
  pc : Nat
  sr : Nat
  fp : Fin 8 → Nat

/-- The in-memory `struct M68KState` fields touched by the two context
routines. -/
structure M68KCtx where
  D : Fin 8 → Nat
  A : Fin 8 → Nat
  PC : Nat
  SR : Nat
  FP : Fin 8 → Nat
  USP : Nat
  ISP : Nat
  MSP : Nat

/-- `M68K_SaveContext` (start.c lines 1032-1065): store every data, address
and FPU register, PC, and the low 16 bits of SR (`strh`), then write the A7
host register back to the stack bank selected by the S and M bits of the
just-stored SR (lines 1056-1064). -/
def M68K_SaveContext (h : HostRegs) (c : M68KCtx) : M68KCtx :=
  let sr16 := h.sr % 2^16
  { D := h.d
    A := h.a
    PC := h.pc
    SR := sr16
    FP := h.fp
    USP := if sr16 &&& 0x2000 ≠ 0 then c.USP else h.a 7
    ISP := if sr16 &&& 0x2000 ≠ 0 then
             (if sr16 &&& 0x1000 ≠ 0 then c.ISP else h.a 7)
           else c.ISP
    MSP := if sr16 &&& 0x2000 ≠ 0 then
             (if sr16 &&& 0x1000 ≠ 0 then h.a 7 else c.MSP)
           else c.MSP }

/-- `M68K_LoadContext` (start.c lines 976-1030): load every register from the
record (`ldrh` for SR), then overwrite A7 with the bank selected by the S and
M bits of the loaded SR (lines 1021-1029; the earlier load of `A[7]` at line
1007 is dead, the override always follows). -/
def M68K_LoadContext (c : M68KCtx) : HostRegs :=
  { d := c.D
    a := fun i =>
      if i = 7 then
        (if c.SR &&& 0x2000 ≠ 0 then
           (if c.SR &&& 0x1000 ≠ 0 then c.MSP else c.ISP)
         else c.USP)
      else c.A i
    pc := c.PC
    sr := c.SR
    fp := c.FP }

/-! ### Translation-unit lookup (src/src/aarch64/start.c, `stub_FindUnit`
asm block, lines 1162-1195)

Each translation unit embeds two doubly linked list nodes: the hash-chain
node at offset 0 (walked via `ldr x4, [x0]`) and the LRU node at offset 16
(the promotion block manipulates words at offsets 16 and 24 and their
neighbours); the guest address sits at offset 32 (`ldr x5, [x0, #32]`).
The promotion block exchanges the found unit's LRU node with its
predecessor — one step toward the LRU head — unless the unit is already
first (`cbz x5, 4b`); the hash chain itself is never modified. -/

/-- The bucket hash: `eor w0, w_pc, w_pc, lsr #16` followed by
`and x0, x0, #0xffff` (lines 1169-1170). -/
def hashPC (pc : Nat) : Nat := (pc ^^^ (pc >>> 16)) &&& 0xffff

/-- Walk of one hash chain (lines 1174-1181): return the first unit whose
recorded guest address equals the wanted PC, or none. -/
def findInBucket (pc : Nat) : List (Nat × Nat) → Option Nat
  | [] => none
  | (uid, addr) :: rest => if addr = pc then some uid else findInBucket pc rest

/-- The LRU promotion (lines 1183-1192): the found unit's node swaps places
with its predecessor, one position toward the list head; a unit already at
the head stays put. -/
def lruPromote (uid : Nat) : List Nat → List Nat
  | [] => []
  | [a] => [a]
  | a :: b :: rest =>
      if a = uid then a :: b :: rest
      else if b = uid then b :: a :: rest
      else a :: lruPromote uid (b :: rest)

/-- The translation-unit directory: 2^16 hash chains of (unit id, guest
address) pairs, plus the global LRU list of unit ids. -/
structure ICacheModel where
  buckets : Nat → List (Nat × Nat)
  lru : List Nat

/-- `FindUnit` (lines 1162-1195): hash the guest PC, walk the selected
chain, and on a hit promote the unit one step in the LRU list; the hash
chains are left untouched.  On a miss return none and change nothing. -/
def FindUnit (c : ICacheModel) (pc : Nat) : Option Nat × ICacheModel :=
  match findInBucket pc (c.buckets (hashPC pc)) with
  | none => (none, c)
  | some uid => (some uid, { buckets := c.buckets, lru := lruPromote uid c.lru })

/-! ### TrimDoubleRange (src/M68k_LINEF.c, lines 140-180)

The C function manipulates the 64-bit pattern of a double through a union;
`n.i32[0]` aliases the exponent-carrying (IEEE-754 upper) 32-bit half of the
value — the interpretation under which the function computes what its own
comment states (the remainder of |x| divided by 2) and which the exponent
positions it uses (bits 20..30 of that half) require.  The bit pattern is
embedded as a natural number below 2^64. -/

/-- Count of leading zero bits of a 64-bit value (`__builtin_clzll`), called
by `TrimDoubleRange` only on nonzero arguments, for which it returns 64
minus the bit length. -/
def clz64 (n : Nat) : Nat :=
  64 - (List.range 64).foldl (fun acc k => if n.testBit k then k + 1 else acc) 0

/-- The mantissa/exponent renormalization of `TrimDoubleRange` (M68k_LINEF.c
lines 153-174), applied to the extracted 52-bit mantissa field and 11-bit
biased exponent field. -/
def trimNormalize (man exp : Nat) : Nat × Nat :=
  if man ≠ 0 ∧ 0x3ff < exp ∧ exp < 0x3ff + 52 then
    -- lines 155-156
    let man1 := (man <<< (exp - 0x3ff)) &&& 0x001fffffffffffff
    if man1 ≠ 0 then
      -- lines 159-164
      let d := clz64 man1 - 11
      if d ≠ 0 then ((man1 <<< d) &&& 0x000fffffffffffff, 0x3ff - d)
      else (man1, 0x3ff)
    else (0, 0)                       -- line 168
  else if man = 0 ∧ 0x3ff < exp then
    (man, 0)                          -- lines 171-173
  else
    (man, exp)

/-- `TrimDoubleRange` (M68k_LINEF.c lines 140-180) on the 64-bit pattern of
its argument: extract the exponent field from bits 20..30 of the upper half
and the 52 mantissa bits (lines 150-151), renormalize, then rebuild the
result from the mantissa with bit 52 cleared and the exponent ORed into bits
20..30 of the upper half (lines 176-177); the sign bit is never written. -/
def TrimDoubleRange (i : Nat) : Nat :=
  let exp := ((i / 2^32) >>> 20) &&& 0x7ff
  let man := i &&& 0x000fffffffffffff
  let me := trimNormalize man exp
  let outi := me.1 &&& 0xffefffffffffffff
  (outi / 2^32 ||| me.2 <<< 20) * 2^32 + outi % 2^32

/-- Exact rational value of the IEEE-754 binary64 pattern `i` (meaningful
for non-NaN, non-infinite patterns): sign, 11-bit biased exponent, 52-bit
mantissa, with subnormals scaled by 2^-1074 and normals carrying the
implicit leading bit. -/
def dval (i : Nat) : ℚ :=
  let s : ℕ := i / 2^63 % 2
  let e : ℕ := i / 2^52 % 2^11
  let m : ℕ := i % 2^52
  let mag : ℚ :=
    if e = 0 then (m : ℚ) / 2^1074 else ((2^52 + m : ℕ) : ℚ) * 2^e / 2^1075
  if s = 1 then -mag else mag

/-! ### Execution dispatcher and interrupt injection (src/src/aarch64/start.c,
`stub_ExecutionLoop`, lines 1205-1500, non-PISTORM variant)

The guest state fields live in host registers (PC, A7) and system registers
(SR in TPIDR_EL0) or in the `M68KState` record (PINT, USP/ISP/MSP, VBR);
the embedding gathers them in one record.  Guest memory is modelled as the
byte map the host's store instructions address. -/

/-- Effect of the 2-byte store `strh` at byte address `a` on a byte map. -/
def write16 (a v : Nat) (m : Nat → Nat) : Nat → Nat := fun x =>
  if x = a then v % 2^8
  else if x = a + 1 then v / 2^8 % 2^8
  else m x

/-- Effect of the 4-byte store `str` at byte address `a` on a byte map. -/
def write32 (a v : Nat) (m : Nat → Nat) : Nat → Nat := fun x =>
  if x = a then v % 2^8
  else if x = a + 1 then v / 2^8 % 2^8
  else if x = a + 2 then v / 2^16 % 2^8
  else if x = a + 3 then v / 2^24 % 2^8
  else m x

/-- The 2-byte load `ldrh` at byte address `a`. -/
def read16 (m : Nat → Nat) (a : Nat) : Nat :=
  m a % 2^8 + m (a + 1) % 2^8 * 2^8

/-- The 4-byte load `ldr` at byte address `a`. -/
def read32 (m : Nat → Nat) (a : Nat) : Nat :=
  m a % 2^8 + m (a + 1) % 2^8 * 2^8 +
    m (a + 2) % 2^8 * 2^16 + m (a + 3) % 2^8 * 2^24

/-- 64-bit register subtraction, as performed by the pre-indexed store
addressing `[x_sp, #-k]!`. -/
def sub64 (a b : Nat) : Nat := (a + (2^64 - b % 2^64)) % 2^64

/-- The guest state visible to the dispatcher's interrupt-injection block. -/
structure M68KSt where
  pc : Nat
  sr : Nat
  a7 : Nat
  usp : Nat
  isp : Nat
  msp : Nat
  vbr : Nat
  pint : Nat
  mem : Nat → Nat

/-- The unmasked pending-interrupt bits (start.c lines 1433-1437): build the
mask `(2 << IPM) - 1`, clear its bit 7 so level 7 is never masked (`bic w4,
w4, #0x80`), then clear the masked bits in a copy of PINT (`bic w3, w1,
w4`). -/
def unmaskedBits (pint ipm : Nat) : Nat :=
  pint &&& (0xffffffff ^^^ (((2 <<< ipm) - 1) &&& 0xffffff7f))

/-- Index of the most significant set bit of a 32-bit value: the sequence
`clz w3, w3; neg w3, w3; add w3, w3, #31` (start.c lines 1445-1447), i.e.
31 minus the count of leading zeros. -/
def highestSetBit (u : Nat) : Nat :=
  (List.range 32).foldl (fun acc k => if u.testBit k then k else acc) 0

/-- The interrupt check and injection block run at the top of every
dispatcher iteration (start.c: gate at line 1242, block `9:` at lines
1431-1474).  When PINT is zero, or no pending level is unmasked, the state
is untouched.  Otherwise: when leaving user mode A7 is saved to USP and the
supervisor stack (MSP if the M bit is set, else ISP) becomes A7; the
accepted level is the highest unmasked pending one; its PINT bit is
cleared; the frame-format/vector word, the return PC and the old SR are
pushed; the trace bits are cleared, S is set and IPM becomes the accepted
level; the new PC is fetched from VBR plus the vector offset. -/
def ExecutionLoop_checkIRQ (s : M68KSt) : M68KSt :=
  -- line 1242: cbnz w1, 9f — the block is entered only when PINT is nonzero
  if s.pint = 0 then s
  else
    let ipm := s.sr / 2^8 % 2^3                    -- line 1432: ubfx w3, w2, #8, #3
    let u := unmaskedBits s.pint ipm               -- lines 1433-1437
    if u = 0 then s                                -- line 1438: cbz w3, 93f
    else
      let fromUser := s.sr / 2^13 % 2 = 0          -- line 1439: tbnz w2, #13
      let usp' := if fromUser then s.a7 else s.usp -- line 1440: str USP
      let sp0 := if fromUser then
                   (if s.sr / 2^12 % 2 = 1 then s.msp else s.isp)  -- lines 1441-1444
                 else s.a7
      let L := highestSetBit u                     -- lines 1445-1447
      let pint' := s.pint &&& (0xffffffff ^^^ ((1 <<< L) % 2^32))
                                                   -- lines 1448-1449, 1457-1458
      let sr5 := s.sr % 2^8 + L % 2^3 * 2^8 + s.sr / 2^11 * 2^11
                                                   -- line 1460: bfi w5, w3, #8, #3
      let vec := (L <<< 2) % 2^32 + 0x60           -- lines 1461-1462
      let sp1 := sub64 sp0 2
      let m1 := write16 sp1 vec s.mem              -- line 1463: strh w3, [sp, #-2]!
      let sp2 := sub64 sp1 4
      let m2 := write32 sp2 s.pc m1                -- line 1464: str w_pc, [sp, #-4]!
      let sp3 := sub64 sp2 2
      let m3 := write16 sp3 s.sr m2                -- line 1465: strh w2, [sp, #-2]!
      let sr6 := sr5 % 2^14 + sr5 / 2^16 * 2^16    -- line 1466: bic w5, w5, #0xc000
      let sr7 := sr6 % 2^13 + 2^13 + sr6 / 2^14 * 2^14
                                                   -- line 1467: orr w5, w5, #0x2000
      { s with pint := pint', usp := usp', a7 := sp3, mem := m3, sr := sr7,
               pc := read32 m3 (s.vbr + vec) }     -- lines 1469-1470: ldr from VBR

/-- One pass of the dispatcher's steady-state loop after the halt check:
inject pending interrupts, then look up or build the fragment for the
current guest PC and enter it.  `frag pc` is the guest-state effect of the
translated fragment entered for that PC (the cache lookup, translation and
CACR fast path of lines 1244-1348 all end in `blr x12` into it). -/
def ExecutionLoop_iter (frag : Nat → M68KSt → M68KSt) (s : M68KSt) : M68KSt :=
  frag (ExecutionLoop_checkIRQ s).pc (ExecutionLoop_checkIRQ s)

/-- The dispatcher loop (start.c label `1:` at line 1217), fuel-limited.
Each iteration first performs the halt-sentinel check `cbz w_pc, 4f`
(line 1221): a zero guest PC leaves the loop, saves the guest context and
returns to the caller (label `4:`, lines 1350-1358).  The result pairs the
final state with the trace of guest PCs whose fragments were entered;
`none` means the fuel ran out with the guest still running. -/
def ExecutionLoop_run (frag : Nat → M68KSt → M68KSt) :
    Nat → M68KSt → Option (M68KSt × List Nat)
  | 0, _ => none
  | fuel + 1, s =>
    if s.pc = 0 then some (s, [])
    else
      match ExecutionLoop_run frag fuel (ExecutionLoop_iter frag s) with
      | none => none
      | some (f, tr) => some (f, (ExecutionLoop_checkIRQ s).pc :: tr)

/-- The stack bank that the interrupt-injection block selects as the
supervisor stack pointer before pushing the exception frame: in user mode
(S clear) the MSP or ISP per the M bit, in supervisor mode the current A7
(start.c lines 1439-1444). -/
def irqSP (s : M68KSt) : Nat :=
  if s.sr / 2^13 % 2 = 0 then (if s.sr / 2^12 % 2 = 1 then s.msp else s.isp)
  else s.a7

/-! ## Theorems -/

theorem write16_at0 (a v : ℕ) (m : ℕ → ℕ) : write16 a v m a = v % 2^8 := by
  unfold write16; rw [if_pos rfl]

theorem write16_at1 (a v : ℕ) (m : ℕ → ℕ) :
    write16 a v m (a + 1) = v / 2^8 % 2^8 := by
  unfold write16; rw [if_neg (by omega), if_pos rfl]

theorem write16_out (a v x : ℕ) (m : ℕ → ℕ) (h : x < a ∨ a + 2 ≤ x) :
    write16 a v m x = m x := by
  unfold write16; rw [if_neg (by omega), if_neg (by omega)]

theorem write32_at0 (a v : ℕ) (m : ℕ → ℕ) : write32 a v m a = v % 2^8 := by
  unfold write32; rw [if_pos rfl]

theorem write32_at1 (a v : ℕ) (m : ℕ → ℕ) :
    write32 a v m (a + 1) = v / 2^8 % 2^8 := by
  unfold write32; rw [if_neg (by omega), if_pos rfl]

theorem write32_at2 (a v : ℕ) (m : ℕ → ℕ) :
    write32 a v m (a + 2) = v / 2^16 % 2^8 := by
  unfold write32; rw [if_neg (by omega), if_neg (by omega), if_pos rfl]

theorem write32_at3 (a v : ℕ) (m : ℕ → ℕ) :
    write32 a v m (a + 3) = v / 2^24 % 2^8 := by
  unfold write32
  rw [if_neg (by omega), if_neg (by omega), if_neg (by omega), if_pos rfl]

theorem write32_out (a v x : ℕ) (m : ℕ → ℕ) (h : x < a ∨ a + 4 ≤ x) :
    write32 a v m x = m x := by
  unfold write32
  rw [if_neg (by omega), if_neg (by omega), if_neg (by omega), if_neg (by omega)]

theorem read16_write16_same (a v : ℕ) (m : ℕ → ℕ) :
    read16 (write16 a v m) a = v % 2^16 := by
  unfold read16; rw [write16_at0, write16_at1]; omega

theorem read32_write32_same (a v : ℕ) (m : ℕ → ℕ) :
    read32 (write32 a v m) a = v % 2^32 := by
  unfold read32; rw [write32_at0, write32_at1, write32_at2, write32_at3]; omega

theorem read16_write16_out (a b v : ℕ) (m : ℕ → ℕ)
    (h : a + 2 ≤ b ∨ b + 2 ≤ a) :
    read16 (write16 b v m) a = read16 m a := by
  unfold read16
  rw [write16_out _ _ _ _ (by omega), write16_out _ _ _ _ (by omega)]

theorem read16_write32_out (a b v : ℕ) (m : ℕ → ℕ)
    (h : a + 2 ≤ b ∨ b + 4 ≤ a) :
    read16 (write32 b v m) a = read16 m a := by
  unfold read16
  rw [write32_out _ _ _ _ (by omega), write32_out _ _ _ _ (by omega)]

theorem read32_write16_out (a b v : ℕ) (m : ℕ → ℕ)
    (h : a + 4 ≤ b ∨ b + 2 ≤ a) :
    read32 (write16 b v m) a = read32 m a := by
  unfold read32
  rw [write16_out _ _ _ _ (by omega), write16_out _ _ _ _ (by omega),
    write16_out _ _ _ _ (by omega), write16_out _ _ _ _ (by omega)]

theorem sub64_small (a b : ℕ) (hb : b ≤ a) (ha : a < 2^64) (hb64 : b < 2^64) :
    sub64 a b = a - b := by
  unfold sub64
  have : b % 2^64 = b := Nat.mod_eq_of_lt hb64
  rw [this]
  omega

set_option maxHeartbeats 4000000 in
set_option maxRecDepth 100000 in
theorem irq_unmasked_eq_zero_iff : ∀ (p : Fin 256) (ipm : Fin 8),
    (unmaskedBits p.val ipm.val = 0 ↔
      ∀ L : Fin 8, p.val.testBit L.val = true → L.val ≤ ipm.val ∧ L.val ≠ 7) := by
  decide

set_option maxHeartbeats 4000000 in
set_option maxRecDepth 100000 in
theorem irq_accept_level_spec :
    ∀ (p : Fin 256) (ipm : Fin 8), unmaskedBits p.val ipm.val ≠ 0 →
      highestSetBit (unmaskedBits p.val ipm.val) < 8 ∧
      p.val.testBit (highestSetBit (unmaskedBits p.val ipm.val)) = true ∧
      (ipm.val < highestSetBit (unmaskedBits p.val ipm.val) ∨
        highestSetBit (unmaskedBits p.val ipm.val) = 7) ∧
      ∀ K : Fin 8, p.val.testBit K.val = true → (ipm.val < K.val ∨ K.val = 7) →
        K.val ≤ highestSetBit (unmaskedBits p.val ipm.val) := by
  decide

theorem irq_unmasked_eq_zero_iff_nat (p ipm : ℕ) (hp : p < 256) (hipm : ipm < 8) :
    (unmaskedBits p ipm = 0 ↔
      ∀ L, L < 8 → p.testBit L = true → L ≤ ipm ∧ L ≠ 7) := by
  have h := irq_unmasked_eq_zero_iff ⟨p, hp⟩ ⟨ipm, hipm⟩
  constructor
  · intro h0 L hL hbit
    exact h.1 h0 ⟨L, hL⟩ hbit
  · intro hall
    exact h.2 (fun L hbit => hall L.val L.isLt hbit)

theorem irq_accept_level_spec_nat (p ipm : ℕ) (hp : p < 256) (hipm : ipm < 8)
    (hu : unmaskedBits p ipm ≠ 0) :
    highestSetBit (unmaskedBits p ipm) < 8 ∧
    p.testBit (highestSetBit (unmaskedBits p ipm)) = true ∧
    (ipm < highestSetBit (unmaskedBits p ipm) ∨
      highestSetBit (unmaskedBits p ipm) = 7) ∧
    ∀ K, K < 8 → p.testBit K = true → (ipm < K ∨ K = 7) →
      K ≤ highestSetBit (unmaskedBits p ipm) := by
  obtain ⟨a, b, c, d⟩ := irq_accept_level_spec ⟨p, hp⟩ ⟨ipm, hipm⟩ hu
  exact ⟨a, b, c, fun K hK hbit hor => d ⟨K, hK⟩ hbit hor⟩



theorem trim_and_mask52 (m : ℕ) : m &&& 0x000fffffffffffff = m % 2^52 := by
  rw [show (0x000fffffffffffff : ℕ) = 2^52 - 1 by norm_num,
    Nat.and_pow_two_sub_one_eq_mod]

theorem trim_and_mask53 (m : ℕ) : m &&& 0x001fffffffffffff = m % 2^53 := by
  rw [show (0x001fffffffffffff : ℕ) = 2^53 - 1 by norm_num,
    Nat.and_pow_two_sub_one_eq_mod]

theorem trim_and_clear52 (m : ℕ) (hm : m < 2^53) :
    m &&& 0xffefffffffffffff = m % 2^52 := by
  have h1 : m &&& (2^53 - 1) = m := Nat.and_pow_two_sub_one_of_lt_two_pow hm
  calc m &&& 0xffefffffffffffff
      = (m &&& (2^53 - 1)) &&& 0xffefffffffffffff := by rw [h1]
    _ = m &&& ((2^53 - 1) &&& 0xffefffffffffffff) := Nat.and_assoc _ _ _
    _ = m &&& (2^52 - 1) := by congr 1
    _ = m % 2^52 := Nat.and_pow_two_sub_one_eq_mod _ _

theorem trim_assemble (man exp : ℕ) (hman : man < 2^53) :
    ((man &&& 0xffefffffffffffff) / 2^32 ||| exp <<< 20) * 2^32 +
      (man &&& 0xffefffffffffffff) % 2^32 = exp * 2^52 + man % 2^52 := by
  rw [trim_and_clear52 man hman]
  have hrlt : man % 2^52 < 2^52 := Nat.mod_lt _ (by norm_num)
  have hdiv : man % 2^52 / 2^32 < 2^20 := by omega
  have hor : man % 2^52 / 2^32 ||| exp <<< 20 = 2^20 * exp + man % 2^52 / 2^32 := by
    calc man % 2^52 / 2^32 ||| exp <<< 20
        = man % 2^52 / 2^32 ||| 2^20 * exp := by rw [Nat.shiftLeft_eq, mul_comm]
      _ = 2^20 * exp ||| man % 2^52 / 2^32 := Nat.or_comm _ _
      _ = 2^20 * exp + man % 2^52 / 2^32 := (Nat.mul_add_lt_is_or hdiv exp).symm
  rw [hor]
  omega

theorem trimNormalize_man_lt (man exp : ℕ) (hman : man < 2^52) :
    (trimNormalize man exp).1 < 2^53 := by
  simp only [trimNormalize, trim_and_mask53, trim_and_mask52]
  split_ifs <;> dsimp only <;> omega

theorem trimNormalize_exp_le_any (man exp : ℕ) :
    (trimNormalize man exp).2 ≤ max exp 0x3ff := by
  simp only [trimNormalize, le_max_iff]
  split_ifs <;> dsimp only <;> omega

theorem trimNormalize_exp_le (man exp : ℕ)
    (h : exp < 0x433 ∨ man = 0) : (trimNormalize man exp).2 ≤ 0x3ff := by
  simp only [trimNormalize]
  split_ifs <;> dsimp only <;> omega

theorem trimNormalize_in_range (man exp : ℕ) (hle : exp ≤ 0x3ff) :
    trimNormalize man exp = (man, exp) := by
  simp only [trimNormalize]
  split_ifs <;> first | rfl | (exfalso; omega)

theorem trim_exp_field (i : ℕ) :
    ((i / 2^32) >>> 20) &&& 0x7ff = i / 2^52 % 2^11 := by
  rw [show (0x7ff : ℕ) = 2^11 - 1 by norm_num, Nat.and_pow_two_sub_one_eq_mod,
    Nat.shiftRight_eq_div_pow, Nat.div_div_eq_div_mul]
  norm_num

theorem TrimDoubleRange_eq (i : ℕ) :
    TrimDoubleRange i =
      (trimNormalize (i % 2^52) (i / 2^52 % 2^11)).2 * 2^52 +
        (trimNormalize (i % 2^52) (i / 2^52 % 2^11)).1 % 2^52 := by
  unfold TrimDoubleRange
  rw [trim_exp_field, trim_and_mask52]
  exact trim_assemble _ _
    (trimNormalize_man_lt _ _ (Nat.mod_lt _ (by norm_num)))

theorem dval_pattern_bounds (e m : ℕ) (he : e ≤ 0x3ff) (hm : m < 2^52) :
    0 ≤ dval (e * 2^52 + m) ∧ dval (e * 2^52 + m) < 2 := by
  have h63 : (e * 2^52 + m) / 2^63 % 2 = 0 := by omega
  have hediv : (e * 2^52 + m) / 2^52 % 2^11 = e := by
    have h1 : (e * 2^52 + m) / 2^52 = e := by omega
    rw [h1]; omega
  have hmmod : (e * 2^52 + m) % 2^52 = m := by omega
  unfold dval
  simp only [h63, hediv, hmmod]
  rw [if_neg (show ¬ (0 : ℕ) = 1 by decide)]
  by_cases he0 : e = 0
  · subst he0
    rw [if_pos rfl]
    refine ⟨by positivity, ?_⟩
    rw [div_lt_iff₀ (by positivity)]
    have hq : (m : ℚ) < 2^52 := by exact_mod_cast hm
    calc (m : ℚ) < 2^52 := hq
      _ ≤ 2 * 2^1074 := by norm_num
  · rw [if_neg he0]
    refine ⟨by positivity, ?_⟩
    rw [div_lt_iff₀ (by positivity)]
    have h1 : ((2^52 + m : ℕ) : ℚ) < 2^53 := by
      exact_mod_cast (show 2^52 + m < 2^53 by omega)
    have h2 : (2 : ℚ)^e ≤ 2^1023 := by
      apply pow_le_pow_right₀ (by norm_num) (by omega)
    have h3 : ((2^52 + m : ℕ) : ℚ) * 2^e < 2^53 * 2^1023 := by
      have hp : (0 : ℚ) < 2^e := by positivity
      calc ((2^52 + m : ℕ) : ℚ) * 2^e < 2^53 * 2^e := by
            exact mul_lt_mul_of_pos_right h1 hp
        _ ≤ 2^53 * 2^1023 := by
            exact mul_le_mul_of_nonneg_left h2 (by positivity)
    calc ((2^52 + m : ℕ) : ℚ) * 2^e < 2^53 * 2^1023 := h3
      _ = 2 * 2^1075 := by norm_num

/-- C5: saving the guest context and then immediately loading it on the same
state record restores every guest-visible register bit-for-bit: all data and
address registers (including the active A7 bank, which round-trips through
the USP/ISP/MSP field selected by the S and M bits of SR), PC, SR, and all
eight FPU registers.  SR is stored with `strh` and reloaded with `ldrh`, so
the guest SR is its architectural 16 bits. -/
theorem C5_context_roundtrip (h : HostRegs) (c : M68KCtx) (hsr : h.sr < 2^16) :
    M68K_LoadContext (M68K_SaveContext h c) = h := by
  have hmod : h.sr % 2^16 = h.sr := Nat.mod_eq_of_lt hsr
  obtain ⟨hd, ha, hpc, hsrv, hfp⟩ := h
  simp only [M68K_SaveContext, M68K_LoadContext, hmod] at *
  congr 1
  funext i
  by_cases h7 : i = 7
  · subst h7; split_ifs <;> rfl
  · simp [h7]

/-- Witness for C5 at a concrete host register file and context record. -/
theorem C5_context_roundtrip_witness :
    (0x2700 : Nat) < 2^16 ∧
    M68K_LoadContext (M68K_SaveContext
        ⟨fun i => i.val, fun i => 100 + i.val, 0x400, 0x2700, fun i => i.val⟩
        ⟨fun _ => 0, fun _ => 0, 0, 0, fun _ => 0, 11, 22, 33⟩) =
      ⟨fun i => i.val, fun i => 100 + i.val, 0x400, 0x2700, fun i => i.val⟩ :=
  ⟨by decide, C5_context_roundtrip _ _ (by decide)⟩

/-- C7: the A7 shadow is coherent with the stack bank selected by the current
(S, M) bits, for every value of SR: `M68K_LoadContext` reads A7 from MSP when
S and M are both set, from ISP when S is set and M clear, and from USP when S
is clear (start.c lines 1021-1029); `M68K_SaveContext` writes A7 back to
exactly that same bank, leaving the other two bank fields unchanged (lines
1056-1064); consequently a save immediately followed by a load restores A7.
Here `sr16` is the 16-bit SR value the save routine stores and tests. -/
theorem C7_a7_bank_coherent (h : HostRegs) (c : M68KCtx) :
    ((c.SR &&& 0x2000 ≠ 0 → c.SR &&& 0x1000 ≠ 0 →
        (M68K_LoadContext c).a 7 = c.MSP) ∧
     (c.SR &&& 0x2000 ≠ 0 → c.SR &&& 0x1000 = 0 →
        (M68K_LoadContext c).a 7 = c.ISP) ∧
     (c.SR &&& 0x2000 = 0 → (M68K_LoadContext c).a 7 = c.USP)) ∧
    ((h.sr % 2^16 &&& 0x2000 ≠ 0 → h.sr % 2^16 &&& 0x1000 ≠ 0 →
        (M68K_SaveContext h c).MSP = h.a 7 ∧
        (M68K_SaveContext h c).ISP = c.ISP ∧
        (M68K_SaveContext h c).USP = c.USP) ∧
     (h.sr % 2^16 &&& 0x2000 ≠ 0 → h.sr % 2^16 &&& 0x1000 = 0 →
        (M68K_SaveContext h c).ISP = h.a 7 ∧
        (M68K_SaveContext h c).MSP = c.MSP ∧
        (M68K_SaveContext h c).USP = c.USP) ∧
     (h.sr % 2^16 &&& 0x2000 = 0 →
        (M68K_SaveContext h c).USP = h.a 7 ∧
        (M68K_SaveContext h c).ISP = c.ISP ∧
        (M68K_SaveContext h c).MSP = c.MSP)) ∧
    (M68K_LoadContext (M68K_SaveContext h c)).a 7 = h.a 7 := by
  refine ⟨⟨?_, ?_, ?_⟩, ⟨?_, ?_, ?_⟩, ?_⟩ <;> intros <;>
    simp only [M68K_LoadContext, M68K_SaveContext] <;>
    split_ifs <;> simp_all

/-- Witness for C7 at a concrete supervisor-with-M-set SR (S = 1, M = 1). -/
theorem C7_a7_bank_coherent_witness :
    ((0x3000 : Nat) &&& 0x2000 ≠ 0 ∧ (0x3000 : Nat) &&& 0x1000 ≠ 0) ∧
    (M68K_LoadContext ⟨fun _ => 0, fun _ => 0, 0, 0x3000, fun _ => 0, 11, 22, 33⟩).a 7 = 33 :=
  ⟨⟨by decide, by decide⟩,
    (C7_a7_bank_coherent
        ⟨fun _ => 0, fun _ => 0, 0, 0, fun _ => 0⟩
        ⟨fun _ => 0, fun _ => 0, 0, 0x3000, fun _ => 0, 11, 22, 33⟩).1.1
      (by decide) (by decide)⟩

/-- C4: the claim states that a hit moves the found unit to the head of its
bucket's list.  Counterexample: with two units (ids 1 and 2, guest addresses
0 and 0x10001, both hashing to bucket 0) chained in that order, `FindUnit`
on 0x10001 returns unit 2, yet afterwards the bucket chain is unchanged and
its head is still unit 1 — the promotion acts one step at a time on the
separate LRU list (node at offset 16), not on the hash chain. -/
theorem C4_bucket_head_counterexample :
    (FindUnit ⟨fun h => if h = 0 then [(1, 0), (2, 0x10001)] else [], [1, 2]⟩
        0x10001).1 = some 2 ∧
    ((FindUnit ⟨fun h => if h = 0 then [(1, 0), (2, 0x10001)] else [], [1, 2]⟩
        0x10001).2.buckets (hashPC 0x10001)).head? = some (1, 0) ∧
    some ((1 : Nat), (0 : Nat)) ≠ some ((2 : Nat), (0x10001 : Nat)) := by
  refine ⟨by decide, by decide, by decide⟩

/-- C4 (amended): the lookup hashes the 32-bit guest PC to a 16-bit bucket
index by XORing its high and low halves; on a hit it returns the first
matching unit of the selected chain and advances that unit one position
toward the head of the LRU list, leaving every hash chain unchanged; on a
miss it returns empty and changes nothing; repeating the lookup immediately
returns the very same unit. -/
theorem C4_find_unit_behaviour (c : ICacheModel) (pc : Nat) :
    hashPC pc < 65536 ∧
    (FindUnit c pc).1 = findInBucket pc (c.buckets (hashPC pc)) ∧
    (FindUnit c pc).2.buckets = c.buckets ∧
    ((FindUnit c pc).2.lru =
      match (FindUnit c pc).1 with
      | none => c.lru
      | some uid => lruPromote uid c.lru) ∧
    (FindUnit ((FindUnit c pc).2) pc).1 = (FindUnit c pc).1 := by
  have hb : (pc ^^^ (pc >>> 16)) &&& 0xffff ≤ 0xffff := Nat.and_le_right
  refine ⟨by unfold hashPC; omega, ?_, ?_, ?_, ?_⟩ <;>
    cases hfind : findInBucket pc (c.buckets (hashPC pc)) <;>
      simp [FindUnit, hfind]

/-- C1: the claim states that for every `DBcc` with condition other than T,
on the condition-false path a wrapped counter advances guest PC past the
displacement word (exit PC = opcode address + 4), and otherwise the
sign-extended displacement word is added to the (advanced) guest PC.  The
code violates this for the condition F (`DBF`): the block of lines 73-84
that advances PC over the opcode word is not emitted, so on counter wrap the
exit PC is opcode + 2 (the address OF the displacement word), and on loop
continuation the `ldrsh` at line 100 fetches the opcode word itself (here
0x51C8, giving PC 0x61C8) instead of the displacement word 0xFFFC at
opcode + 2.  The low-16-bit decrement and high-half preservation do hold. -/
theorem C1_DBF_pc_divergence :
    (DBcc_emitted_step false true false
        (fun a => if a = 0x1000 then 0x51C8 else if a = 0x1002 then 0xFFFC else 0)
        ⟨0xABCD0000, 0x1000⟩
      = ⟨0xABCDFFFF, 0x1002⟩ ∧ (0x1002 : Nat) ≠ 0x1000 + 4) ∧
    DBcc_emitted_step false true false
        (fun a => if a = 0x1000 then 0x51C8 else if a = 0x1002 then 0xFFFC else 0)
        ⟨0xABCD0005, 0x1000⟩
      = ⟨0xABCD0004, 0x61C8⟩ := by
  refine ⟨⟨?_, by decide⟩, ?_⟩ <;> decide

/-- C6: the claim states that a `udf` guard word is emitted iff the opcode
pair is not recognized.  The code violates it for FABS.X reg-reg: because
the FABS branch (line 298) is an `if` detached from the `else if` chain that
ends in `udf` (line 600), the pair (0xF200, 0x0018) is recognized, emits the
FABS translation, and nevertheless also appends one `udf` word. -/
theorem C6_fabs_also_emits_udf :
    lineF_recognized 0xf200 0x0018 ∧
    EMIT_lineF_items 0xf200 0x0018 = [.fabs, .udf] := by
  exact ⟨by decide, by decide⟩

/-- C9: on the `DBcc` emitter's general path (condition other than T), the
scratch register allocated at line 87 for the counter arithmetic is passed
to `RA_FreeARMRegister` twice: once right after the final PC update
(line 108) and once after the trailing patch records (line 117). -/
theorem C9_scratch_double_free (isF : Bool) (counterReg tmp reg : Nat)
    (h : tmp ≠ reg) :
    (EMIT_line5_DBcc_actions false isF counterReg tmp reg).count
      (.freeARM reg) = 2 := by
  have htr : ((EmitAction.freeARM tmp) == (EmitAction.freeARM reg)) = false := by
    simp [h]
  cases isF <;>
    simp [EMIT_line5_DBcc_actions, List.count_append, List.count_cons,
      List.count_nil, htr, List.count]

/-- Witness for C9 at a concrete input. -/
theorem C9_scratch_double_free_witness :
    (0 : Nat) ≠ 1 ∧
    (EMIT_line5_DBcc_actions false false 3 0 1).count (.freeARM 1) = 2 :=
  ⟨by decide, C9_scratch_double_free false 3 0 1 (by decide)⟩

/-- C3: the claim states that every finite double is trimmed into [0, 2).
Counterexample: the finite pattern 0x4330000000000001 (the value 2^52 + 1,
biased exponent 0x433, mantissa field 1) satisfies neither branch condition
at lines 153 and 171 of M68k_LINEF.c, so `TrimDoubleRange` returns it
unchanged, and its value 2^52 + 1 is not below 2. -/
theorem C3_range_counterexample :
    (0x4330000000000001 : ℕ) / 2^52 % 2^11 ≠ 0x7ff ∧
    TrimDoubleRange 0x4330000000000001 = 0x4330000000000001 ∧
    ¬ dval (TrimDoubleRange 0x4330000000000001) < 2 := by
  refine ⟨by decide, by decide, ?_⟩
  rw [show TrimDoubleRange 0x4330000000000001 = 0x4330000000000001 by decide]
  unfold dval
  rw [show (0x4330000000000001 : ℕ) / 2^63 % 2 = 0 by decide,
    show (0x4330000000000001 : ℕ) / 2^52 % 2^11 = 1075 by decide,
    show (0x4330000000000001 : ℕ) % 2^52 = 1 by decide,
    if_neg (show ¬ (0 : ℕ) = 1 by decide), if_neg (show ¬ (1075 : ℕ) = 0 by decide)]
  rw [mul_div_assoc, div_self (by positivity : ((2 : ℚ)^(1075 : ℕ)) ≠ 0), mul_one]
  push_cast
  norm_num

/-- C3 (amended): for every double whose biased exponent field is below
0x433 or whose mantissa field is zero, `TrimDoubleRange` yields a value in
[0, 2); and it returns every nonnegative 64-bit pattern already in [0, 2)
(sign bit clear, biased exponent at most 0x3ff) unchanged.  Patterns with
exponent 0x433..0x7fe and a nonzero mantissa field — finite doubles of
magnitude at least 2^52 that are not powers of two — fall through both
branches and are returned out of range, which forces the restriction. -/
theorem C3_trim_range_idempotent (i : ℕ) :
    (i / 2^52 % 2^11 < 0x433 ∨ i % 2^52 = 0 →
      0 ≤ dval (TrimDoubleRange i) ∧ dval (TrimDoubleRange i) < 2) ∧
    (i < 2^64 → i.testBit 63 = false → i / 2^52 % 2^11 ≤ 0x3ff →
      TrimDoubleRange i = i) := by
  constructor
  · intro h
    rw [TrimDoubleRange_eq]
    exact dval_pattern_bounds _ _ (trimNormalize_exp_le _ _ (by omega))
      (Nat.mod_lt _ (by norm_num))
  · intro h64 hsign hexp
    have hs : i / 2^63 % 2 = 0 := by
      have := Nat.testBit_to_div_mod (x := i) (i := 63)
      rw [hsign] at this
      simpa using this.symm
    have hl : i < 2^63 := by omega
    rw [TrimDoubleRange_eq, trimNormalize_in_range _ _ hexp]
    have : i / 2^52 % 2^11 = i / 2^52 := Nat.mod_eq_of_lt (by omega)
    rw [this]
    omega

/-- Witness for C3 at the pattern of 1.0 (0x3FF0000000000000): in range,
trimmed into [0, 2), and returned unchanged. -/
theorem C3_trim_range_idempotent_witness :
    (0 ≤ dval (TrimDoubleRange 0x3ff0000000000000) ∧
      dval (TrimDoubleRange 0x3ff0000000000000) < 2) ∧
    TrimDoubleRange 0x3ff0000000000000 = 0x3ff0000000000000 :=
  ⟨(C3_trim_range_idempotent 0x3ff0000000000000).1 (Or.inl (by decide)),
   (C3_trim_range_idempotent 0x3ff0000000000000).2 (by decide) (by decide)
     (by decide)⟩

/-- C10: for every 64-bit input pattern — negative, infinite or NaN included
— the result of `TrimDoubleRange` has its IEEE-754 sign bit (bit 63) clear:
the result is rebuilt from the masked mantissa and an exponent field of at
most 11 bits ORed into bits 20..30 of the upper half, so bit 63 is never
set. -/
theorem C10_sign_bit_clear (i : ℕ) (_hi : i < 2^64) :
    (TrimDoubleRange i).testBit 63 = false := by
  rw [TrimDoubleRange_eq]
  have hm : (trimNormalize (i % 2^52) (i / 2^52 % 2^11)).1 % 2^52 < 2^52 :=
    Nat.mod_lt _ (by norm_num)
  have he : (trimNormalize (i % 2^52) (i / 2^52 % 2^11)).2 ≤ 0x7ff := by
    have h1 := trimNormalize_exp_le_any (i % 2^52) (i / 2^52 % 2^11)
    have h2 : i / 2^52 % 2^11 < 2^11 := Nat.mod_lt _ (by norm_num)
    omega
  exact Nat.testBit_lt_two_pow (by omega)

/-- Witness for C10 at the pattern of a negative quiet NaN. -/
theorem C10_sign_bit_clear_witness :
    (0xfff8000000000000 : ℕ) < 2^64 ∧
    (TrimDoubleRange 0xfff8000000000000).testBit 63 = false :=
  ⟨by decide, C10_sign_bit_clear 0xfff8000000000000 (by decide)⟩

/-- C8: whenever the dispatcher loop observes a guest PC of zero — the halt
sentinel checked by `cbz w_pc, 4f` before the interrupt check, the cache
lookup and any fragment entry — it saves the guest context and returns to
its caller with an empty trace of entered fragments; conversely, the only
way the loop ever returns is with final guest PC zero, so the guest is
never dispatched past the sentinel. -/
theorem C8_halt_sentinel (frag : Nat → M68KSt → M68KSt) (fuel : Nat) (s : M68KSt) :
    (s.pc = 0 → 0 < fuel → ExecutionLoop_run frag fuel s = some (s, [])) ∧
    (∀ f tr, ExecutionLoop_run frag fuel s = some (f, tr) → f.pc = 0) := by
  induction fuel generalizing s with
  | zero =>
    refine ⟨fun _ h => absurd h (by omega), fun f tr h => ?_⟩
    simp [ExecutionLoop_run] at h
  | succ n ih =>
    constructor
    · intro h0 _
      simp [ExecutionLoop_run, h0]
    · intro f tr h
      by_cases hpc : s.pc = 0
      · rw [ExecutionLoop_run, if_pos hpc] at h
        simp only [Option.some.injEq, Prod.mk.injEq] at h
        obtain ⟨hf, _⟩ := h
        subst hf
        exact hpc
      · rw [ExecutionLoop_run, if_neg hpc] at h
        cases hrun : ExecutionLoop_run frag n (ExecutionLoop_iter frag s) with
        | none => rw [hrun] at h; exact absurd h (by simp)
        | some pr =>
          obtain ⟨f2, tr2⟩ := pr
          rw [hrun] at h
          simp only [Option.some.injEq, Prod.mk.injEq] at h
          obtain ⟨hf, _⟩ := h
          subst hf
          exact (ih _).2 f2 tr2 hrun

/-- C2: the dispatcher's interrupt-injection block.  If every pending PINT
level is at or below IPM and none is level 7, the block changes nothing.
If some pending level is unmasked (above IPM, or equal to 7 which is
non-maskable) and `L` is the highest such level, then afterwards: the S bit
is set, both trace bits are clear, IPM equals `L`, the new PC was loaded
from `VBR + (24 + L) * 4`, A7 was saved to USP exactly when user mode was
left, A7 is the selected supervisor bank minus the 8 pushed bytes, and that
stack holds — from the new top — the old 16-bit SR, the old PC and the
frame-format/vector word `0x60 + 4 * L`. -/
theorem C2_interrupt_injection (s : M68KSt)
    (hpint : s.pint < 2^8) (hsr : s.sr < 2^16) (hpc : s.pc < 2^32)
    (ha7 : 8 ≤ s.a7 ∧ s.a7 < 2^32) (hisp : 8 ≤ s.isp ∧ s.isp < 2^32)
    (hmsp : 8 ≤ s.msp ∧ s.msp < 2^32) :
    ((∀ K, K < 8 → s.pint.testBit K = true → K ≤ s.sr / 2^8 % 2^3 ∧ K ≠ 7) →
      ExecutionLoop_checkIRQ s = s) ∧
    (∀ L, L < 8 → s.pint.testBit L = true →
      (s.sr / 2^8 % 2^3 < L ∨ L = 7) →
      (∀ K, K < 8 → s.pint.testBit K = true →
        (s.sr / 2^8 % 2^3 < K ∨ K = 7) → K ≤ L) →
      (ExecutionLoop_checkIRQ s).sr / 2^13 % 2 = 1 ∧
      (ExecutionLoop_checkIRQ s).sr / 2^14 % 4 = 0 ∧
      (ExecutionLoop_checkIRQ s).sr / 2^8 % 2^3 = L ∧
      (ExecutionLoop_checkIRQ s).pc =
        read32 (ExecutionLoop_checkIRQ s).mem (s.vbr + (24 + L) * 4) ∧
      (s.sr / 2^13 % 2 = 0 → (ExecutionLoop_checkIRQ s).usp = s.a7) ∧
      (s.sr / 2^13 % 2 ≠ 0 → (ExecutionLoop_checkIRQ s).usp = s.usp) ∧
      (ExecutionLoop_checkIRQ s).a7 = irqSP s - 8 ∧
      read16 (ExecutionLoop_checkIRQ s).mem (irqSP s - 8) = s.sr % 2^16 ∧
      read32 (ExecutionLoop_checkIRQ s).mem (irqSP s - 6) = s.pc ∧
      read16 (ExecutionLoop_checkIRQ s).mem (irqSP s - 2) = 0x60 + 4 * L) := by
  have hipm8 : s.sr / 2^8 % 2^3 < 8 := Nat.mod_lt _ (by norm_num)
  constructor
  · intro hmask
    simp only [ExecutionLoop_checkIRQ]
    by_cases hp0 : s.pint = 0
    · rw [if_pos hp0]
    · rw [if_neg hp0]
      have hz : unmaskedBits s.pint (s.sr / 2^8 % 2^3) = 0 :=
        (irq_unmasked_eq_zero_iff_nat s.pint _ hpint hipm8).2 hmask
      rw [if_pos hz]
  · intro L hL8 hbit hun hmax
    have hp0 : s.pint ≠ 0 := by
      intro h
      rw [h, Nat.zero_testBit] at hbit
      exact Bool.false_ne_true hbit
    have hu : unmaskedBits s.pint (s.sr / 2^8 % 2^3) ≠ 0 := by
      intro h
      have h2 := (irq_unmasked_eq_zero_iff_nat s.pint _ hpint hipm8).1 h
        L hL8 hbit
      omega
    obtain ⟨hH8, hHbit, hHun, hHmax⟩ :=
      irq_accept_level_spec_nat s.pint _ hpint hipm8 hu
    have hLeq : highestSetBit (unmaskedBits s.pint (s.sr / 2^8 % 2^3)) = L := by
      have h1 := hHmax L hL8 hbit hun
      have h2 := hmax _ hH8 hHbit hHun
      omega
    have hvec : ((L <<< 2) % 2^32 + 0x60 : ℕ) = (24 + L) * 4 := by
      rw [Nat.shiftLeft_eq]; omega
    have hspB : 8 ≤ (if s.sr / 2^13 % 2 = 0 then
        (if s.sr / 2^12 % 2 = 1 then s.msp else s.isp) else s.a7) ∧
        (if s.sr / 2^13 % 2 = 0 then
        (if s.sr / 2^12 % 2 = 1 then s.msp else s.isp) else s.a7) < 2^32 := by
      split_ifs <;> omega
    simp only [ExecutionLoop_checkIRQ, irqSP]
    rw [if_neg hp0, if_neg hu, hLeq, hvec]
    have hsp1 : sub64 (if s.sr / 2^13 % 2 = 0 then
        (if s.sr / 2^12 % 2 = 1 then s.msp else s.isp) else s.a7) 2 =
        (if s.sr / 2^13 % 2 = 0 then
        (if s.sr / 2^12 % 2 = 1 then s.msp else s.isp) else s.a7) - 2 :=
      sub64_small _ _ (by omega) (by omega) (by norm_num)
    rw [hsp1]
    have hsp2 : sub64 ((if s.sr / 2^13 % 2 = 0 then
        (if s.sr / 2^12 % 2 = 1 then s.msp else s.isp) else s.a7) - 2) 4 =
        (if s.sr / 2^13 % 2 = 0 then
        (if s.sr / 2^12 % 2 = 1 then s.msp else s.isp) else s.a7) - 6 := by
      rw [sub64_small _ _ (by omega) (by omega) (by norm_num)]
      omega
    rw [hsp2]
    have hsp3 : sub64 ((if s.sr / 2^13 % 2 = 0 then
        (if s.sr / 2^12 % 2 = 1 then s.msp else s.isp) else s.a7) - 6) 2 =
        (if s.sr / 2^13 % 2 = 0 then
        (if s.sr / 2^12 % 2 = 1 then s.msp else s.isp) else s.a7) - 8 := by
      rw [sub64_small _ _ (by omega) (by omega) (by norm_num)]
      omega
    rw [hsp3]
    dsimp only
    refine ⟨by omega, by omega, by omega, rfl, ?_, ?_, rfl, ?_, ?_, ?_⟩
    · intro hS; rw [if_pos hS]
    · intro hS; rw [if_neg hS]
    · rw [read16_write16_same]
    · rw [read32_write16_out _ _ _ _ (by omega), read32_write32_same]
      omega
    · rw [read16_write16_out _ _ _ _ (by omega),
        read16_write32_out _ _ _ _ (by omega), read16_write16_same]
      omega


/-- Witness for C8: a guest state already at the halt sentinel exits the
loop immediately with no fragments entered. -/
theorem C8_halt_sentinel_witness :
    ExecutionLoop_run (fun _ t => t) 1
        ⟨0, 0, 8, 0, 8, 8, 0, 0, fun _ => 0⟩ =
      some (⟨0, 0, 8, 0, 8, 8, 0, 0, fun _ => 0⟩, []) :=
  (C8_halt_sentinel (fun _ t => t) 1 _).1 rfl (by decide)

/-- Witness for C2: with IPM = 3 and only PINT bit 5 raised in user mode,
the accepted level is 5 and A7 becomes the ISP bank minus the 8 pushed
bytes. -/
theorem C2_interrupt_injection_witness :
    (ExecutionLoop_checkIRQ
        ⟨0x100, 0x0300, 0x1000, 0, 0x2000, 0x3000, 0x400, 0x20,
          fun _ => 0⟩).sr / 2^8 % 2^3 = 5 ∧
    (ExecutionLoop_checkIRQ
        ⟨0x100, 0x0300, 0x1000, 0, 0x2000, 0x3000, 0x400, 0x20,
          fun _ => 0⟩).a7 =
      irqSP ⟨0x100, 0x0300, 0x1000, 0, 0x2000, 0x3000, 0x400, 0x20,
          fun _ => 0⟩ - 8 := by
  have h := (C2_interrupt_injection
      ⟨0x100, 0x0300, 0x1000, 0, 0x2000, 0x3000, 0x400, 0x20, fun _ => 0⟩
      (by decide) (by decide) (by decide) (by decide) (by decide)
      (by decide)).2 5 (by decide) (by decide) (by decide) (by decide)
  exact ⟨h.2.2.1, h.2.2.2.2.2.2.1⟩

end Emu68
